import Mathlib

/-!
Shallow embedding of the schedule CRUD service in `src/api/schedules.js`
(Express + Mongoose). The HTTP layer and the MongoDB store are the external
collaborators of the spec: the store is modelled as an in-memory list of
documents in insertion order, together with the behaviours the source relies
on — `findOne` returns the first match in order, `sort({id: -1})` selects the
greatest `id` in lexicographic (BSON binary string) order, and `save` enforces
the `unique: true` index on `id` by failing on a duplicate.

JSON field values that the handlers test for truthiness are modelled as
`Option String` (`none` = absent or falsy, i.e. `undefined`/`null`/`""`);
array-valued fields are `Option (List _)` (`none` = absent or not an array,
which is what the `Array.isArray` checks reject; `some []` is a present empty
array, which is truthy in JS).
-/

namespace SchedulesApi

/-! ## JS number/string primitives used by the handlers -/

/-- The character `'0' + d` for a decimal digit value `d < 10`. -/
def digitChar (d : Nat) : Char := Char.ofNat (48 + d)

/-- Decimal digits of `n`, least significant first, with explicit recursion
fuel so that the definition is structural (any `fuel ≥ n` gives the same
result); empty for `0`. -/
def natToRevDigitsAux : Nat → Nat → List Char
  | _, 0 => []
  | 0, _ + 1 => []
  | f + 1, n + 1 => digitChar ((n + 1) % 10) :: natToRevDigitsAux f ((n + 1) / 10)

/-- Decimal digits of `n`, least significant first (empty for `0`). -/
def natToRevDigits (n : Nat) : List Char := natToRevDigitsAux n n

/-- Models JS `Number.prototype.toString()` for the nonnegative integers the
handler produces: standard decimal notation. -/
def numToString (n : Nat) : String :=
  if n = 0 then "0" else ⟨(natToRevDigits n).reverse⟩

/-- Accumulating decimal parse: consumes the maximal leading run of decimal
digits, like JS `parseInt` does after its prefix handling. -/
def parseDigitsAcc : Nat → List Char → Nat
  | acc, [] => acc
  | acc, c :: cs =>
    if c.isDigit then parseDigitsAcc (10 * acc + (c.toNat - 48)) cs else acc

/-- Models JS `parseInt(s)` for the strings that occur here (no leading
whitespace, sign, or radix prefix): parses the maximal leading run of decimal
digits; `none` models the result `NaN` when the first character is not a
digit. -/
def jsParseInt (s : String) : Option Nat :=
  match s.toList with
  | [] => none
  | c :: cs => if c.isDigit then some (parseDigitsAcc (c.toNat - 48) cs) else none

/-- JS truthiness of an optional string field: absent (`undefined`/`null`)
and the empty string are falsy. -/
def truthy : Option String → Bool
  | none => false
  | some s => !s.isEmpty

/-! ## Data model (`scheduleSchema`, lines 36–58 of `schedules.js`) -/

/-- Schema `{ subject: String (required), prof: String }`: a content item as stored. -/
structure ContentItem where
  subject : String
  prof : String
deriving Repr, DecidableEq

/-- Schema `{ hour: String (required), content: [ContentItem] }`: stored hour slot
(called `subject` inside the `days` mapping of the POST handler). -/
structure HourSlot where
  hour : String
  content : List ContentItem
deriving Repr, DecidableEq

/-- Schema `{ name: String (required), subjects: [HourSlot] }`: a stored day. -/
structure Day where
  name : String
  subjects : List HourSlot
deriving Repr, DecidableEq

/-- A stored schedule document. `internalId` models the Mongo `_id` the store
assigns at insertion; `id` is the externally visible sequential id
(a `String` with a `unique: true` index). -/
structure Schedule where
  internalId : String
  id : String
  division : String
  level : String
  term : String
  year : String
  days : List Day
deriving Repr, DecidableEq

/-- The document store: the `schedules` collection in insertion order, plus a
counter from which fresh `_id` values are minted. -/
structure Store where
  docs : List Schedule
  nextOid : Nat
deriving Repr, DecidableEq

/-- The `_id` the store would assign to the next inserted document. -/
def freshOid (st : Store) : String := "oid" ++ numToString st.nextOid

/-- Models `schedule.save()` (line 176): inserts the document, failing with a
duplicate-key error when the `unique: true` index on `id` (line 37) is
violated. -/
def Store.save (st : Store) (sc : Schedule) : Except String Store :=
  if st.docs.any (fun d => d.id == sc.id) then
    Except.error "E11000 duplicate key error collection: schedules index: id_1"
  else
    Except.ok { docs := st.docs ++ [sc], nextOid := st.nextOid + 1 }

/-! ## Creation payloads (request bodies) -/

/-- A content item as it arrives in the request body; both fields may be
absent or empty. -/
structure ContentItemInput where
  subject : Option String
  prof : Option String
deriving Repr, DecidableEq

/-- An hour-slot candidate (`subject` in the source's `days.map`); `content`
is `none` when absent or not an array (`Array.isArray` fails). -/
structure SubjectInput where
  hour : Option String
  content : Option (List ContentItemInput)
deriving Repr, DecidableEq

/-- A day candidate; `subjects` is `none` when absent or not an array. -/
structure DayInput where
  name : Option String
  subjects : Option (List SubjectInput)
deriving Repr, DecidableEq

/-- A schedule candidate from the `schedules` array of the POST body.
`days` is `none` when absent or falsy; `some l` is a present array (truthy
even when empty). -/
structure ScheduleInput where
  division : Option String
  level : Option String
  term : Option String
  year : Option String
  days : Option (List DayInput)
deriving Repr, DecidableEq

/-! ## POST /schedules validation and formatting (lines 126–164) -/

/-- The `formattedContent` mapper (lines 142–152): requires a truthy
`subject` and a truthy `prof`, otherwise throws. -/
def formatContentItem (c : ContentItemInput) : Except String ContentItem :=
  if !truthy c.subject || !truthy c.prof then
    Except.error "Each content item must have both subject and prof fields."
  else
    Except.ok { subject := c.subject.getD "", prof := c.prof.getD "" }

/-- The `formattedSubjects` mapper (lines 134–158): requires a truthy `hour`
and an array `content`, then formats each content item. -/
def formatSubject (s : SubjectInput) : Except String HourSlot :=
  if !truthy s.hour || s.content.isNone then
    Except.error "Each subject must have an hour and an array of content items."
  else do
    let content ← (s.content.getD []).mapM formatContentItem
    Except.ok { hour := s.hour.getD "", content := content }

/-- One step of the `formattedDays` mapper (lines 126–164): requires a truthy
`name` and an array `subjects`, then formats each subject. -/
def formatDay (d : DayInput) : Except String Day :=
  if !truthy d.name || d.subjects.isNone then
    Except.error "Each day must have a name and an array of subjects."
  else do
    let subjects ← (d.subjects.getD []).mapM formatSubject
    Except.ok { name := d.name.getD "", subjects := subjects }

/-- Runs `days.map(...)` over the whole candidate: the first throw aborts. -/
def formatDays (ds : List DayInput) : Except String (List Day) :=
  ds.mapM formatDay

/-! ## Sequential id generation (lines 122–123) -/

/-- Lexicographic comparison of character lists by code point; on UTF-8
encoded strings this is exactly MongoDB's binary string order (UTF-8 byte
order agrees with code-point order). -/
def strLtList : List Char → List Char → Bool
  | [], [] => false
  | [], _ :: _ => true
  | _ :: _, [] => false
  | a :: as, b :: bs =>
    if a.toNat < b.toNat then true
    else if b.toNat < a.toNat then false
    else strLtList as bs

/-- MongoDB's binary (lexicographic) order on string values. -/
def strLt (s t : String) : Bool := strLtList s.toList t.toList

/-- Models `Schedule.findOne().sort({ id: -1 }).select('id')`: the id of a document
whose `id` string is greatest in the store's binary (lexicographic) string
order, or `none` when the collection is empty. -/
def lexMaxId (docs : List Schedule) : Option String :=
  docs.foldl
    (fun acc d =>
      match acc with
      | none => some d.id
      | some m => if strLt m d.id then some d.id else some m)
    none

/-- Models `const newId = maxId ? parseInt(maxId.id) + 1 : 1;` followed by
`newId.toString()`: `NaN.toString()` is `"NaN"`. -/
def nextIdStr (docs : List Schedule) : String :=
  match lexMaxId docs with
  | none => numToString 1
  | some m =>
    match jsParseInt m with
    | some n => numToString (n + 1)
    | none => "NaN"

/-! ## Responses -/

/-- An HTTP JSON response as the handlers build it: a status code, the
`message` field, and the optional `error` field attached by the catch
blocks. -/
structure ApiResponse where
  status : Nat
  message : String
  error : Option String
deriving Repr, DecidableEq

/-- Models `res.status(201).json({ message: 'Schedules created successfully' })`. -/
def createdResponse : ApiResponse :=
  { status := 201, message := "Schedules created successfully", error := none }

/-- The 400 sent when the `schedules` array is missing, not an array, or
empty (lines 102–107). -/
def badBatchResponse : ApiResponse :=
  { status := 400
    message := "Schedules array is required and should contain at least one schedule"
    error := none }

/-- The 400 sent when a candidate misses a required top-level field
(lines 114–119). -/
def missingFieldsResponse : ApiResponse :=
  { status := 400
    message := "All fields (division, level, term, year, days) are required for each schedule"
    error := none }

/-- The 400 built by the catch block of the POST handler (lines 180–184)
from a thrown error message. -/
def createFailedResponse (e : String) : ApiResponse :=
  { status := 400, message := "Failed to create schedules", error := some e }

/-! ## POST /schedules (lines 99–185) -/

/-- The required-fields guard of lines 114–119:
`!division || !level || !term || !year || !days`. -/
def missingRequired (c : ScheduleInput) : Bool :=
  !truthy c.division || !truthy c.level || !truthy c.term
    || !truthy c.year || c.days.isNone

/-- The document built by `new Schedule({...})` (lines 167–174) for a
candidate whose days formatted to `fd`: the generated sequential id plus the
destructured fields. -/
def builtSchedule (st : Store) (c : ScheduleInput) (fd : List Day) : Schedule :=
  { internalId := freshOid st
    id := nextIdStr st.docs
    division := c.division.getD ""
    level := c.level.getD ""
    term := c.term.getD ""
    year := c.year.getD ""
    days := fd }

/-- The body of the `for (const scheduleData of schedules)` loop, iterated
sequentially; the first failure ends the request (earlier saves are not
rolled back), and reaching the end of the array yields the 201. -/
def processCandidates (st : Store) : List ScheduleInput → Store × ApiResponse
  | [] => (st, createdResponse)
  | c :: rest =>
    if missingRequired c then
      (st, missingFieldsResponse)
    else
      match formatDays (c.days.getD []) with
      | Except.error e => (st, createFailedResponse e)
      | Except.ok formattedDays =>
        match st.save (builtSchedule st c formattedDays) with
        | Except.error e => (st, createFailedResponse e)
        | Except.ok st' => processCandidates st' rest

/-- The `schedules` field of the POST body: absent-or-falsy, a truthy
non-array value, or an actual array. -/
inductive SchedulesField where
  | missing : SchedulesField
  | notArray : SchedulesField
  | arr : List ScheduleInput → SchedulesField
deriving Repr, DecidableEq

/-- The POST `/schedules` handler: the batch-shape guard of lines 102–107
(`!schedules || !Array.isArray(schedules) || schedules.length === 0`)
followed by the sequential candidate loop. -/
def postSchedules (st : Store) : SchedulesField → Store × ApiResponse
  | SchedulesField.missing => (st, badBatchResponse)
  | SchedulesField.notArray => (st, badBatchResponse)
  | SchedulesField.arr [] => (st, badBatchResponse)
  | SchedulesField.arr (c :: rest) => processCandidates st (c :: rest)

/-! ## GET /schedules/:id (lines 83–96) -/

/-- Whether a document matches the dual-key filter
`{ $or: [{ id: key }, { _id: key }] }`. -/
def matchesKey (key : String) (d : Schedule) : Bool :=
  d.id == key || d.internalId == key

/-- Outcome of a single-document lookup route. -/
inductive GetResponse where
  | found : Schedule → GetResponse
  | notFound : GetResponse
deriving Repr, DecidableEq

/-- The GET `/schedules/:id` handler: `findOne` on the dual-key filter
returns the first match in collection order; no match gives the 404 with
body `{ message: 'Schedule not found' }`. -/
def getScheduleByKey (st : Store) (key : String) : GetResponse :=
  match st.docs.find? (matchesKey key) with
  | some s => GetResponse.found s
  | none => GetResponse.notFound

/-! ## PUT /schedules/:id (lines 188–203) -/

/-- A PUT body after Mongoose strips non-schema paths (strict mode): any
subset of the schema's top-level paths, applied as a `$set`. -/
structure UpdateBody where
  id : Option String
  division : Option String
  level : Option String
  term : Option String
  year : Option String
  days : Option (List Day)
deriving Repr, DecidableEq

/-- The PUT body that sets only `level`. -/
def levelOnly (v : String) : UpdateBody :=
  { id := none, division := none, level := some v
    term := none, year := none, days := none }

/-- The `$set` application of the update body to a document: present paths are
replaced, absent paths untouched. -/
def applyPatch (d : Schedule) (p : UpdateBody) : Schedule :=
  { d with
    id := p.id.getD d.id
    division := p.division.getD d.division
    level := p.level.getD d.level
    term := p.term.getD d.term
    year := p.year.getD d.year
    days := p.days.getD d.days }

/-- Models `runValidators: true` on the updated paths: the `required: true` string
paths reject an empty string; within updated `days`, each `name`, `hour` and
content `subject` is required. -/
def validPatch (p : UpdateBody) : Bool :=
  p.division.all (fun v => !v.isEmpty)
    && p.level.all (fun v => !v.isEmpty)
    && p.term.all (fun v => !v.isEmpty)
    && p.year.all (fun v => !v.isEmpty)
    && p.days.all (fun l =>
        l.all (fun day =>
          !day.name.isEmpty
            && day.subjects.all (fun hs =>
                !hs.hour.isEmpty
                  && hs.content.all (fun ci => !ci.subject.isEmpty))))

/-- Outcome of the PUT route. -/
inductive PutResponse where
  | updated : Schedule → PutResponse
  | notFound : PutResponse
  | failed : PutResponse
deriving Repr, DecidableEq

/-- Replace the first document matching the key with its patched version,
returning the updated document (`new: true`). -/
def updateFirstMatch (key : String) (p : UpdateBody) :
    List Schedule → Option (List Schedule × Schedule)
  | [] => none
  | d :: ds =>
    if matchesKey key d then
      some (applyPatch d p :: ds, applyPatch d p)
    else
      (updateFirstMatch key p ds).map (fun r => (d :: r.1, r.2))

/-- The PUT `/schedules/:id` handler: `findOneAndUpdate` on the dual-key
filter with `new: true, runValidators: true`; a validator failure is caught
and becomes a 400, no match a 404. -/
def putSchedule (st : Store) (key : String) (p : UpdateBody) :
    Store × PutResponse :=
  if validPatch p then
    match updateFirstMatch key p st.docs with
    | some (docs', updated) =>
      ({ st with docs := docs' }, PutResponse.updated updated)
    | none => (st, PutResponse.notFound)
  else
    (st, PutResponse.failed)

/-- The numeric value the handler's id computation works with:
`some (v + 1)` when the lexicographically greatest stored id parses to `v`,
`some 1` for the empty collection, `none` when `parseInt` yields `NaN`. -/
def nextIdNum (docs : List Schedule) : Option Nat :=
  match lexMaxId docs with
  | none => some 1
  | some m => (jsParseInt m).map (· + 1)

/-- The id assignment as the spec's words state it, for comparison with the
implementation's `nextIdStr`: "max existing id + 1, defaulting to 1 when the
store is empty", reading each stored id as its number. -/
def specNextId (docs : List Schedule) : Nat :=
  (docs.foldl (fun acc d => max acc ((jsParseInt d.id).getD 0)) 0) + 1

/-! ## Concrete fixtures used by witnesses and counterexamples -/

/-- A store with an empty `schedules` collection. -/
def emptyStore : Store := { docs := [], nextOid := 0 }

/-- A stored document with the given `_id` and `id` and fixed valid fields. -/
def sampleDoc (oid i : String) : Schedule :=
  { internalId := oid, id := i, division := "econ", level := "1"
    term := "first", year := "2024", days := [] }

/-- A store holding ids `"9"` and `"11"`: its numerically greatest id is 11
but its lexicographically greatest id is `"9"`. -/
def mixedStore : Store := { docs := [sampleDoc "a1" "9", sampleDoc "b2" "11"], nextOid := 2 }

/-- A fully valid creation candidate. -/
def sampleCand : ScheduleInput :=
  { division := some "econ", level := some "1", term := some "first"
    year := some "2024"
    days := some [{ name := some "Monday"
                    subjects := some [{ hour := some "9:00"
                                        content := some [{ subject := some "Math"
                                                           prof := some "Dr. Ali" }] }] }] }

/-- A candidate whose content item has a subject but no `prof`. -/
def noProfCand : ScheduleInput :=
  { sampleCand with
    days := some [{ name := some "Monday"
                    subjects := some [{ hour := some "9:00"
                                        content := some [{ subject := some "Math"
                                                           prof := none }] }] }] }

/-- A candidate missing its `division`. -/
def noDivisionCand : ScheduleInput := { sampleCand with division := none }

/-- A candidate whose `division` is present but the empty string. -/
def emptyDivisionCand : ScheduleInput := { sampleCand with division := some "" }

/-- A valid candidate whose `days` is the present empty array. -/
def emptyDaysCand : ScheduleInput := { sampleCand with days := some [] }

/-! ## Decimal round-trip: `parseInt(n.toString()) = n` -/

theorem natToRevDigitsAux_fuel {f1 : Nat} :
    ∀ {f2 n : Nat}, n ≤ f1 → n ≤ f2 →
      natToRevDigitsAux f1 n = natToRevDigitsAux f2 n := by
  induction f1 with
  | zero =>
    intro f2 n h1 _
    have : n = 0 := Nat.le_zero.mp h1
    subst this
    cases f2 <;> rfl
  | succ f ih =>
    intro f2 n h1 h2
    cases n with
    | zero => cases f2 <;> rfl
    | succ m =>
      cases f2 with
      | zero => omega
      | succ f2' =>
        simp only [natToRevDigitsAux]
        congr 1
        exact ih (by omega) (by omega)

theorem natToRevDigits_succ (m : Nat) :
    natToRevDigits (m + 1)
      = digitChar ((m + 1) % 10) :: natToRevDigits ((m + 1) / 10) := by
  show natToRevDigitsAux (m + 1) (m + 1) = _
  simp only [natToRevDigitsAux]
  congr 1
  exact natToRevDigitsAux_fuel (by omega) (le_refl _)

theorem digitChar_isDigit {d : Nat} (h : d < 10) : (digitChar d).isDigit = true := by
  interval_cases d <;> decide

theorem digitChar_val {d : Nat} (h : d < 10) : (digitChar d).toNat - 48 = d := by
  interval_cases d <;> decide

theorem natToRevDigits_digits (n : Nat) :
    ∀ c ∈ natToRevDigits n, c.isDigit = true := by
  induction n using Nat.strong_induction_on with
  | _ n ih =>
    match n with
    | 0 =>
      intro c hc
      simp [natToRevDigits, natToRevDigitsAux] at hc
    | m + 1 =>
      intro c hc
      rw [natToRevDigits_succ] at hc
      rcases List.mem_cons.mp hc with h | h
      · subst h
        exact digitChar_isDigit (Nat.mod_lt _ (by omega))
      · exact ih ((m + 1) / 10) (Nat.div_lt_self (Nat.succ_pos m) (by omega)) c h

theorem parseDigitsAcc_append (a : Nat) (xs : List Char) (c : Char)
    (hxs : ∀ x ∈ xs, x.isDigit = true) (hc : c.isDigit = true) :
    parseDigitsAcc a (xs ++ [c]) = 10 * parseDigitsAcc a xs + (c.toNat - 48) := by
  induction xs generalizing a with
  | nil => simp [parseDigitsAcc, hc]
  | cons x xs ih =>
    have hx : x.isDigit = true := hxs x (List.mem_cons_self x xs)
    simp only [List.cons_append, parseDigitsAcc, hx, if_true]
    exact ih _ (fun y hy => hxs y (List.mem_cons_of_mem x hy))

theorem parseDigitsAcc_revDigits (n : Nat) :
    parseDigitsAcc 0 (natToRevDigits n).reverse = n := by
  induction n using Nat.strong_induction_on with
  | _ n ih =>
    match n with
    | 0 => simp [natToRevDigits, natToRevDigitsAux, parseDigitsAcc]
    | m + 1 =>
      rw [natToRevDigits_succ, List.reverse_cons,
        parseDigitsAcc_append _ _ _
          (fun x hx => natToRevDigits_digits _ x (List.mem_reverse.mp hx))
          (digitChar_isDigit (Nat.mod_lt _ (by omega))),
        ih ((m + 1) / 10) (Nat.div_lt_self (Nat.succ_pos m) (by omega)),
        digitChar_val (Nat.mod_lt _ (by omega))]
      omega

theorem jsParseInt_numToString (n : Nat) : jsParseInt (numToString n) = some n := by
  match n with
  | 0 => decide
  | m + 1 =>
    have hcons : natToRevDigits (m + 1)
        = digitChar ((m + 1) % 10) :: natToRevDigits ((m + 1) / 10) :=
      natToRevDigits_succ m
    have htl : (numToString (m + 1)).toList = (natToRevDigits (m + 1)).reverse := by
      simp [numToString, String.toList]
    rw [jsParseInt, htl]
    cases hL : (natToRevDigits (m + 1)).reverse with
    | nil =>
      exfalso
      rw [List.reverse_eq_nil_iff, hcons] at hL
      exact List.cons_ne_nil _ _ hL
    | cons c cs =>
      have hcmem : c ∈ natToRevDigits (m + 1) :=
        List.mem_reverse.mp (hL ▸ List.mem_cons_self c cs)
      have hcd : c.isDigit = true := natToRevDigits_digits _ c hcmem
      simp only [hcd, if_true]
      have : parseDigitsAcc 0 (c :: cs) = m + 1 := by
        rw [← hL, parseDigitsAcc_revDigits]
      simp only [parseDigitsAcc, hcd, if_true, Nat.mul_zero, Nat.zero_add] at this
      rw [this]

theorem numToString_injective {a b : Nat} (h : numToString a = numToString b) :
    a = b := by
  have ha := jsParseInt_numToString a
  have hb := jsParseInt_numToString b
  rw [h, hb] at ha
  exact (Option.some.inj ha).symm

/-! ## Basic facts about the id computation and the store -/

theorem lexMaxId_append_singleton (docs : List Schedule) (d : Schedule) :
    lexMaxId (docs ++ [d])
      = match lexMaxId docs with
        | none => some d.id
        | some m => if strLt m d.id then some d.id else some m := by
  unfold lexMaxId
  rw [List.foldl_append]
  rfl

theorem nextIdStr_of_nextIdNum {docs : List Schedule} {a : Nat}
    (h : nextIdNum docs = some a) : nextIdStr docs = numToString a := by
  cases hm : lexMaxId docs with
  | none =>
    simp [nextIdNum, hm] at h
    simp [nextIdStr, hm, ← h]
  | some m =>
    cases hp : jsParseInt m with
    | none => simp [nextIdNum, hm, hp] at h
    | some v =>
      simp [nextIdNum, hm, hp] at h
      simp [nextIdStr, hm, hp, ← h]

theorem missingFields_ne_created : missingFieldsResponse ≠ createdResponse := by
  decide

theorem createFailed_ne_created (e : String) :
    createFailedResponse e ≠ createdResponse := by
  intro h
  have hs : (createFailedResponse e).status = createdResponse.status :=
    congrArg ApiResponse.status h
  simp [createFailedResponse, createdResponse] at hs

theorem Store.save_ok {st : Store} {sc : Schedule} {st' : Store}
    (h : st.save sc = Except.ok st') :
    st'.docs = st.docs ++ [sc] ∧ st'.nextOid = st.nextOid + 1
      ∧ ∀ d ∈ st.docs, d.id ≠ sc.id := by
  unfold Store.save at h
  split at h
  · cases h
  · rename_i hany
    cases h
    refine ⟨rfl, rfl, fun d hd hid => hany ?_⟩
    rw [List.any_eq_true]
    exact ⟨d, hd, by simp [hid]⟩

theorem Store.save_of_fresh {st : Store} {sc : Schedule}
    (h : ∀ d ∈ st.docs, d.id ≠ sc.id) :
    st.save sc = Except.ok { docs := st.docs ++ [sc], nextOid := st.nextOid + 1 } := by
  unfold Store.save
  rw [if_neg]
  intro hany
  rw [List.any_eq_true] at hany
  obtain ⟨d, hd, hid⟩ := hany
  exact h d hd (by simpa using hid)

theorem processCandidates_cons_missing {st : Store} {c : ScheduleInput}
    {rest : List ScheduleInput} (h : missingRequired c = true) :
    processCandidates st (c :: rest) = (st, missingFieldsResponse) := by
  simp [processCandidates, h]

theorem processCandidates_cons_badDays {st : Store} {c : ScheduleInput}
    {rest : List ScheduleInput} {e : String}
    (h1 : missingRequired c = false)
    (h2 : formatDays (c.days.getD []) = Except.error e) :
    processCandidates st (c :: rest) = (st, createFailedResponse e) := by
  simp [processCandidates, h1, h2]

theorem processCandidates_cons_saveFail {st : Store} {c : ScheduleInput}
    {rest : List ScheduleInput} {fd : List Day} {e : String}
    (h1 : missingRequired c = false)
    (h2 : formatDays (c.days.getD []) = Except.ok fd)
    (h3 : st.save (builtSchedule st c fd) = Except.error e) :
    processCandidates st (c :: rest) = (st, createFailedResponse e) := by
  simp [processCandidates, h1, h2, h3]

theorem processCandidates_cons_ok {st : Store} {c : ScheduleInput}
    {rest : List ScheduleInput} {fd : List Day} {st' : Store}
    (h1 : missingRequired c = false)
    (h2 : formatDays (c.days.getD []) = Except.ok fd)
    (h3 : st.save (builtSchedule st c fd) = Except.ok st') :
    processCandidates st (c :: rest) = processCandidates st' rest := by
  simp [processCandidates, h1, h2, h3]

/-- An accepted batch is processed left to right: processing `l1 ++ l2`
continues from the store left by `l1` when `l1` alone would be accepted. -/
theorem processCandidates_append {l1 l2 : List ScheduleInput} {st : Store}
    (h : (processCandidates st l1).2 = createdResponse) :
    processCandidates st (l1 ++ l2)
      = processCandidates (processCandidates st l1).1 l2 := by
  induction l1 generalizing st with
  | nil => simp [processCandidates]
  | cons c rest ih =>
    cases h1 : missingRequired c with
    | true =>
      rw [processCandidates_cons_missing h1] at h
      exact absurd h missingFields_ne_created
    | false =>
      cases h2 : formatDays (c.days.getD []) with
      | error e =>
        rw [processCandidates_cons_badDays h1 h2] at h
        exact absurd h (createFailed_ne_created e)
      | ok fd =>
        cases h3 : st.save (builtSchedule st c fd) with
        | error e =>
          rw [processCandidates_cons_saveFail h1 h2 h3] at h
          exact absurd h (createFailed_ne_created e)
        | ok st' =>
          rw [processCandidates_cons_ok h1 h2 h3] at h
          rw [List.cons_append, processCandidates_cons_ok h1 h2 h3,
            processCandidates_cons_ok h1 h2 h3]
          exact ih h

/-- The store only ever grows during a POST: whatever happens, the resulting
collection is the original one followed by the newly inserted documents. -/
theorem processCandidates_docs_grow (l : List ScheduleInput) (st : Store) :
    ∃ newDocs, (processCandidates st l).1.docs = st.docs ++ newDocs := by
  induction l generalizing st with
  | nil => exact ⟨[], by simp [processCandidates]⟩
  | cons c rest ih =>
    cases h1 : missingRequired c with
    | true => exact ⟨[], by rw [processCandidates_cons_missing h1]; simp⟩
    | false =>
      cases h2 : formatDays (c.days.getD []) with
      | error e => exact ⟨[], by rw [processCandidates_cons_badDays h1 h2]; simp⟩
      | ok fd =>
        cases h3 : st.save (builtSchedule st c fd) with
        | error e =>
          exact ⟨[], by rw [processCandidates_cons_saveFail h1 h2 h3]; simp⟩
        | ok st' =>
          obtain ⟨nd, hnd⟩ := ih st'
          obtain ⟨hdocs, -, -⟩ := Store.save_ok h3
          refine ⟨builtSchedule st c fd :: nd, ?_⟩
          rw [processCandidates_cons_ok h1 h2 h3, hnd, hdocs]
          simp

theorem Store.save_dup {st : Store} {sc : Schedule}
    (h : ∃ d ∈ st.docs, d.id = sc.id) :
    st.save sc
      = Except.error "E11000 duplicate key error collection: schedules index: id_1" := by
  unfold Store.save
  rw [if_pos]
  rw [List.any_eq_true]
  obtain ⟨d, hd, hid⟩ := h
  exact ⟨d, hd, by simp [hid]⟩

/-- After inserting the generated id, the handler's next id either advances
to `a + 1` (the fresh id became the lexicographic maximum) or stays stuck at
the id just inserted (an older id still lexicographically dominates it). -/
theorem nextIdNum_after_insert {st : Store} {sc : Schedule} {st' : Store} {a : Nat}
    (ha : nextIdNum st.docs = some a) (hid : sc.id = numToString a)
    (h : st.save sc = Except.ok st') :
    nextIdNum st'.docs = some (a + 1) ∨ nextIdStr st'.docs = sc.id := by
  obtain ⟨hdocs, -, -⟩ := Store.save_ok h
  have hparse : jsParseInt sc.id = some a := by
    rw [hid]; exact jsParseInt_numToString a
  cases hm : lexMaxId st.docs with
  | none =>
    left
    unfold nextIdNum
    rw [hdocs, lexMaxId_append_singleton, hm]
    simp [hparse]
  | some m =>
    have hv : ∃ v, jsParseInt m = some v ∧ a = v + 1 := by
      unfold nextIdNum at ha
      rw [hm] at ha
      simp only [Option.map_eq_some'] at ha
      obtain ⟨v, hv1, hv2⟩ := ha
      exact ⟨v, hv1, hv2.symm⟩
    obtain ⟨v, hp, hav⟩ := hv
    cases hlt : strLt m sc.id with
    | true =>
      left
      unfold nextIdNum
      rw [hdocs, lexMaxId_append_singleton, hm]
      simp only [hlt, if_true]
      simp [hparse]
    | false =>
      right
      have hnum : nextIdNum st'.docs = some a := by
        unfold nextIdNum
        rw [hdocs, lexMaxId_append_singleton, hm]
        simp only [hlt, Bool.false_eq_true, if_false]
        simp [hp, hav]
      rw [nextIdStr_of_nextIdNum hnum, hid]

/-- Core of the id-generation analysis: when the pre-state's next id is the
number `a` and the whole batch is accepted, the batch appends exactly one
document per candidate, and their ids are the consecutive decimal strings
`a, a+1, ...`. -/
theorem processCandidates_accepted_ids {l : List ScheduleInput} {st : Store} {a : Nat}
    (ha : nextIdNum st.docs = some a)
    (hacc : (processCandidates st l).2 = createdResponse) :
    ∃ newDocs : List Schedule,
      (processCandidates st l).1.docs = st.docs ++ newDocs ∧
      newDocs.map (fun d => d.id)
        = (List.range l.length).map (fun i => numToString (a + i)) := by
  induction l generalizing st a with
  | nil => exact ⟨[], by simp [processCandidates]⟩
  | cons c rest ih =>
    cases h1 : missingRequired c with
    | true =>
      rw [processCandidates_cons_missing h1] at hacc
      exact absurd hacc missingFields_ne_created
    | false =>
      cases h2 : formatDays (c.days.getD []) with
      | error e =>
        rw [processCandidates_cons_badDays h1 h2] at hacc
        exact absurd hacc (createFailed_ne_created e)
      | ok fd =>
        cases h3 : st.save (builtSchedule st c fd) with
        | error e =>
          rw [processCandidates_cons_saveFail h1 h2 h3] at hacc
          exact absurd hacc (createFailed_ne_created e)
        | ok st' =>
          rw [processCandidates_cons_ok h1 h2 h3] at hacc
          obtain ⟨hdocs, -, -⟩ := Store.save_ok h3
          have hscid : (builtSchedule st c fd).id = numToString a := by
            unfold builtSchedule
            exact nextIdStr_of_nextIdNum ha
          cases nextIdNum_after_insert ha hscid h3 with
          | inl hnext =>
            obtain ⟨nd, hnd, hids⟩ := ih hnext hacc
            refine ⟨builtSchedule st c fd :: nd, ?_, ?_⟩
            · rw [processCandidates_cons_ok h1 h2 h3, hnd, hdocs]
              simp
            · rw [List.length_cons, List.range_succ_eq_map]
              simp only [List.map_cons, List.map_map]
              refine congrArg₂ List.cons (by simpa using hscid) ?_
              rw [hids]
              refine List.map_congr_left (fun i _ => ?_)
              exact congrArg numToString (by omega)
          | inr hstuck =>
            cases rest with
            | nil =>
              refine ⟨[builtSchedule st c fd], ?_, by simp [List.range_succ, hscid]⟩
              rw [processCandidates_cons_ok h1 h2 h3]
              simp only [processCandidates]
              rw [hdocs]
            | cons c2 rest2 =>
              exfalso
              have hmem : builtSchedule st c fd ∈ st'.docs := by
                rw [hdocs]; simp
              cases h1' : missingRequired c2 with
              | true =>
                rw [processCandidates_cons_missing h1'] at hacc
                exact missingFields_ne_created hacc
              | false =>
                cases h2' : formatDays (c2.days.getD []) with
                | error e =>
                  rw [processCandidates_cons_badDays h1' h2'] at hacc
                  exact createFailed_ne_created e hacc
                | ok fd2 =>
                  have hdup : st'.save (builtSchedule st' c2 fd2)
                      = Except.error
                          "E11000 duplicate key error collection: schedules index: id_1" := by
                    refine Store.save_dup ⟨builtSchedule st c fd, hmem, ?_⟩
                    show (builtSchedule st c fd).id = (builtSchedule st' c2 fd2).id
                    unfold builtSchedule
                    simp only
                    rw [hstuck]
                    rfl
                  rw [processCandidates_cons_saveFail h1' h2' hdup] at hacc
                  exact createFailed_ne_created _ hacc

theorem postSchedules_arr_ne_nil {st : Store} {l : List ScheduleInput} (h : l ≠ []) :
    postSchedules st (SchedulesField.arr l) = processCandidates st l := by
  cases l with
  | nil => exact absurd rfl h
  | cons c rest => rfl

/-- Uniqueness of ids is preserved by a POST: each successful save checked
the unique index first. -/
theorem processCandidates_nodup (l : List ScheduleInput) (st : Store)
    (h : (st.docs.map (fun d => d.id)).Nodup) :
    ((processCandidates st l).1.docs.map (fun d => d.id)).Nodup := by
  induction l generalizing st with
  | nil => simpa [processCandidates] using h
  | cons c rest ih =>
    cases h1 : missingRequired c with
    | true => rw [processCandidates_cons_missing h1]; simpa using h
    | false =>
      cases h2 : formatDays (c.days.getD []) with
      | error e => rw [processCandidates_cons_badDays h1 h2]; simpa using h
      | ok fd =>
        cases h3 : st.save (builtSchedule st c fd) with
        | error e => rw [processCandidates_cons_saveFail h1 h2 h3]; simpa using h
        | ok st' =>
          rw [processCandidates_cons_ok h1 h2 h3]
          refine ih st' ?_
          obtain ⟨hdocs, -, hfresh⟩ := Store.save_ok h3
          rw [hdocs, List.map_append, List.nodup_append]
          refine ⟨h, by simp, ?_⟩
          intro x hx hy
          simp only [List.map_cons, List.map_nil, List.mem_singleton] at hy
          obtain ⟨d, hd, rfl⟩ := List.mem_map.mp hx
          exact hfresh d hd hy

/-- Any batch containing a candidate that fails the required-fields guard is
answered with a 400. -/
theorem processCandidates_member_invalid {l : List ScheduleInput} {c : ScheduleInput}
    (st : Store) (hc : c ∈ l) (hbad : missingRequired c = true) :
    (processCandidates st l).2.status = 400 := by
  induction l generalizing st with
  | nil => cases hc
  | cons c0 rest ih =>
    rcases List.mem_cons.mp hc with rfl | hmem
    · rw [processCandidates_cons_missing hbad]; rfl
    · cases h1 : missingRequired c0 with
      | true => rw [processCandidates_cons_missing h1]; rfl
      | false =>
        cases h2 : formatDays (c0.days.getD []) with
        | error e => rw [processCandidates_cons_badDays h1 h2]; rfl
        | ok fd =>
          cases h3 : st.save (builtSchedule st c0 fd) with
          | error e => rw [processCandidates_cons_saveFail h1 h2 h3]; rfl
          | ok st' =>
            rw [processCandidates_cons_ok h1 h2 h3]
            exact ih st' hmem

theorem truthy_getD_ne_empty {o : Option String} (h : truthy o = true) :
    o.getD "" ≠ "" := by
  cases o with
  | none => simp [truthy] at h
  | some s =>
    simp only [truthy, Bool.not_eq_true'] at h
    intro he
    simp only [Option.getD_some] at he
    subst he
    exact absurd h (by decide)

/-- Every document a POST adds to the store has nonempty `division`,
`level`, `term` and `year`: the truthiness guard ran before its save. -/
theorem processCandidates_new_docs_fields (l : List ScheduleInput) (st : Store) :
    ∀ d ∈ (processCandidates st l).1.docs,
      d ∈ st.docs
        ∨ (d.division ≠ "" ∧ d.level ≠ "" ∧ d.term ≠ "" ∧ d.year ≠ "") := by
  induction l generalizing st with
  | nil => intro d hd; exact Or.inl (by simpa [processCandidates] using hd)
  | cons c rest ih =>
    intro d hd
    cases h1 : missingRequired c with
    | true =>
      rw [processCandidates_cons_missing h1] at hd
      exact Or.inl hd
    | false =>
      cases h2 : formatDays (c.days.getD []) with
      | error e =>
        rw [processCandidates_cons_badDays h1 h2] at hd
        exact Or.inl hd
      | ok fd =>
        cases h3 : st.save (builtSchedule st c fd) with
        | error e =>
          rw [processCandidates_cons_saveFail h1 h2 h3] at hd
          exact Or.inl hd
        | ok st' =>
          rw [processCandidates_cons_ok h1 h2 h3] at hd
          obtain ⟨hdocs, -, -⟩ := Store.save_ok h3
          have htr : truthy c.division = true ∧ truthy c.level = true
              ∧ truthy c.term = true ∧ truthy c.year = true := by
            simp only [missingRequired, Bool.or_eq_false_iff,
              Bool.not_eq_false'] at h1
            exact ⟨h1.1.1.1.1, h1.1.1.1.2, h1.1.1.2, h1.1.2⟩
          rcases ih st' d hd with hmem | hfields
          · rw [hdocs] at hmem
            rcases List.mem_append.mp hmem with hold | hnew
            · exact Or.inl hold
            · right
              have hdnew : d = builtSchedule st c fd := List.mem_singleton.mp hnew
              subst hdnew
              exact ⟨truthy_getD_ne_empty htr.1, truthy_getD_ne_empty htr.2.1,
                truthy_getD_ne_empty htr.2.2.1, truthy_getD_ne_empty htr.2.2.2⟩
          · exact Or.inr hfields

theorem find_first_after {α : Type} {p : α → Bool} {l1 l2 : List α}
    (h : ∀ x ∈ l1, p x = false) : (l1 ++ l2).find? p = l2.find? p := by
  induction l1 with
  | nil => simp
  | cons x xs ih =>
    have hx := h x (List.mem_cons_self x xs)
    simp only [List.cons_append, List.find?, hx]
    exact ih (fun y hy => h y (List.mem_cons_of_mem x hy))

theorem updateFirstMatch_append {key : String} {p : UpdateBody}
    {pre post : List Schedule} {d : Schedule}
    (hpre : ∀ e ∈ pre, matchesKey key e = false)
    (hd : matchesKey key d = true) :
    updateFirstMatch key p (pre ++ d :: post)
      = some (pre ++ applyPatch d p :: post, applyPatch d p) := by
  induction pre with
  | nil => simp [updateFirstMatch, hd]
  | cons e es ih =>
    have he := hpre e (List.mem_cons_self e es)
    have hrec := ih (fun x hx => hpre x (List.mem_cons_of_mem e hx))
    simp [updateFirstMatch, he, hrec]

theorem truthy_empty : truthy (some "") = false := by decide

/-- A candidate failing the required-fields guard or the nested-structure
validation yields a 400 and leaves the store exactly as it was when the
candidate was reached: its validation runs before its write. -/
theorem processCandidates_invalid_head {st : Store} {c : ScheduleInput}
    {rest : List ScheduleInput}
    (h : missingRequired c = true
      ∨ ∃ e, formatDays (c.days.getD []) = Except.error e) :
    ∃ r : ApiResponse, processCandidates st (c :: rest) = (st, r)
      ∧ r.status = 400 := by
  cases h1 : missingRequired c with
  | true => exact ⟨missingFieldsResponse, processCandidates_cons_missing h1, rfl⟩
  | false =>
    rcases h with hbad | ⟨e, he⟩
    · rw [h1] at hbad; cases hbad
    · exact ⟨createFailedResponse e, processCandidates_cons_badDays h1 he, rfl⟩

/-! ## The claims -/

/-- Claim C1, counterexample: Against the store holding ids `"9"` and `"11"`
(numeric maximum 11), a valid single-candidate batch is accepted (201) and
creates a record with id `"10"`: `findOne().sort({id: -1})` picks the
lexicographically greatest id `"9"`, so the created id is neither
(previous max id)+1 = `"12"` as the claim states, nor greater than the
existing id `"11"` — so ids do not increase monotonically across
insertions. -/
theorem claim1_counterexample :
    (postSchedules mixedStore (SchedulesField.arr [sampleCand])).2 = createdResponse
      ∧ ((postSchedules mixedStore (SchedulesField.arr [sampleCand])).1.docs.map
          (fun d => d.id)) = ["9", "11", "10"]
      ∧ specNextId mixedStore.docs = 12
      ∧ numToString (specNextId mixedStore.docs) = "12"
      ∧ jsParseInt "10" = some 10 ∧ jsParseInt "11" = some 11 ∧ 10 < 11 := by
  refine ⟨by decide, by decide, by decide, by decide, by decide, by decide, by decide⟩

/-- Claim C1, amended: The generated id is parseInt(lexicographically
greatest existing id)+1, with 1 on an empty store — not numeric-max+1. For
every accepted batch whose pre-state's next id is the number `a`
(`nextIdNum`), exactly one record is appended per candidate and the created
ids are the consecutive decimal strings `a, a+1, ...` — in particular
strictly increasing within the batch — and uniqueness of ids across the
store is preserved. Agreement with numeric-max+1 and monotonicity across
insertions hold only when the lexicographic maximum is also the numeric
maximum (the counterexample shows them failing otherwise). -/
theorem claim1_amended {l : List ScheduleInput} {st : Store} {a : Nat}
    (ha : nextIdNum st.docs = some a)
    (hacc : (postSchedules st (SchedulesField.arr l)).2 = createdResponse) :
    (∃ newDocs : List Schedule,
      (postSchedules st (SchedulesField.arr l)).1.docs = st.docs ++ newDocs
        ∧ newDocs.map (fun d => d.id)
            = (List.range l.length).map (fun i => numToString (a + i)))
      ∧ ((st.docs.map (fun d => d.id)).Nodup →
          ((postSchedules st (SchedulesField.arr l)).1.docs.map
            (fun d => d.id)).Nodup) := by
  cases l with
  | nil =>
    exfalso
    have hbad : badBatchResponse = createdResponse := hacc
    exact absurd hbad (by decide)
  | cons c rest =>
    rw [postSchedules_arr_ne_nil (by simp)] at hacc ⊢
    exact ⟨processCandidates_accepted_ids ha hacc,
      fun hnd => processCandidates_nodup _ _ hnd⟩

/-- Claim C1, witness: The amended statement applied to `mixedStore` (next
id 10) and a singleton batch. -/
theorem claim1_witness :
    nextIdNum mixedStore.docs = some 10
      ∧ (postSchedules mixedStore (SchedulesField.arr [sampleCand])).2 = createdResponse
      ∧ ((∃ newDocs : List Schedule,
          (postSchedules mixedStore (SchedulesField.arr [sampleCand])).1.docs
              = mixedStore.docs ++ newDocs
            ∧ newDocs.map (fun d => d.id)
                = (List.range [sampleCand].length).map (fun i => numToString (10 + i)))
        ∧ ((mixedStore.docs.map (fun d => d.id)).Nodup →
            ((postSchedules mixedStore (SchedulesField.arr [sampleCand])).1.docs.map
              (fun d => d.id)).Nodup)) :=
  ⟨by decide, by decide, claim1_amended (by decide) (by decide)⟩

/-- Claim C2, counterexample: A creation payload whose content item has a
subject but no `prof` is not accepted with a defaulted `prof`: the request
is rejected with the 400 "Failed to create schedules" carrying the thrown
validation message, and nothing is persisted. -/
theorem claim2_counterexample :
    postSchedules emptyStore (SchedulesField.arr [noProfCand])
      = (emptyStore,
         createFailedResponse
           "Each content item must have both subject and prof fields.") := by
  decide

/-- Claim C2, amended: `prof` is required by the creation validation, not
optional: a content item formats successfully exactly when both `subject`
and `prof` are truthy, and the persisted values are the ones given — no
defaulting to the empty string occurs. -/
theorem claim2_amended (c : ContentItemInput) (r : ContentItem) :
    formatContentItem c = Except.ok r
      ↔ truthy c.subject = true ∧ truthy c.prof = true
          ∧ r = { subject := c.subject.getD "", prof := c.prof.getD "" } := by
  unfold formatContentItem
  cases hs : truthy c.subject <;> cases hp : truthy c.prof <;>
    simp [hs, hp, eq_comm]

/-- Claim C3, counterexample: Two successful creations that assign different
ids ("1" on the empty store, "10" on `mixedStore`) return the very same
response body: the POST response is a constant success message that does not
make the created record's id available to the caller. -/
theorem claim3_counterexample :
    (postSchedules emptyStore (SchedulesField.arr [sampleCand])).2
        = (postSchedules mixedStore (SchedulesField.arr [sampleCand])).2
      ∧ (postSchedules emptyStore (SchedulesField.arr [sampleCand])).2 = createdResponse
      ∧ ((postSchedules emptyStore (SchedulesField.arr [sampleCand])).1.docs.map
          (fun d => d.id)) = ["1"]
      ∧ ((postSchedules mixedStore (SchedulesField.arr [sampleCand])).1.docs.map
          (fun d => d.id)) = ["9", "11", "10"] := by
  refine ⟨by decide, by decide, by decide, by decide⟩

/-- Claim C3, amended: The POST response on success is a fixed message with
no ids; the created record is retrievable by GET under the id the handler
computed (`nextIdStr` of the pre-state, which the response does not echo),
and the retrieved record's fields equal the posted candidate's formatted
fields exactly (with `prof` as given, not defaulted). -/
theorem claim3_amended {st : Store} {c : ScheduleInput} {fd : List Day}
    (h1 : missingRequired c = false)
    (h2 : formatDays (c.days.getD []) = Except.ok fd)
    (hfresh : ∀ d ∈ st.docs, d.id ≠ nextIdStr st.docs)
    (hoid : ∀ d ∈ st.docs, d.internalId ≠ nextIdStr st.docs) :
    (postSchedules st (SchedulesField.arr [c])).2 = createdResponse
      ∧ getScheduleByKey (postSchedules st (SchedulesField.arr [c])).1
            (nextIdStr st.docs)
          = GetResponse.found (builtSchedule st c fd) := by
  have hb : (builtSchedule st c fd).id = nextIdStr st.docs := rfl
  have h3 : st.save (builtSchedule st c fd)
      = Except.ok { docs := st.docs ++ [builtSchedule st c fd]
                    nextOid := st.nextOid + 1 } :=
    Store.save_of_fresh (fun d hd => by rw [hb]; exact hfresh d hd)
  rw [postSchedules_arr_ne_nil (by simp), processCandidates_cons_ok h1 h2 h3]
  refine ⟨rfl, ?_⟩
  have hpre : ∀ d ∈ st.docs, matchesKey (nextIdStr st.docs) d = false := by
    intro d hd
    simp [matchesKey, hfresh d hd, hoid d hd]
  show getScheduleByKey
      { docs := st.docs ++ [builtSchedule st c fd], nextOid := st.nextOid + 1 }
      (nextIdStr st.docs) = GetResponse.found (builtSchedule st c fd)
  unfold getScheduleByKey
  rw [show ({ docs := st.docs ++ [builtSchedule st c fd]
              nextOid := st.nextOid + 1 } : Store).docs
        = st.docs ++ [builtSchedule st c fd] from rfl,
    find_first_after hpre]
  simp [List.find?, matchesKey, builtSchedule]

/-- Claim C3, witness: The amended statement applied to the empty store and
the sample candidate; the computed id is "1". -/
theorem claim3_witness :
    missingRequired sampleCand = false
      ∧ formatDays (sampleCand.days.getD [])
          = Except.ok [{ name := "Monday"
                         subjects := [{ hour := "9:00"
                                        content := [{ subject := "Math"
                                                      prof := "Dr. Ali" }] }] }]
      ∧ (∀ d ∈ emptyStore.docs, d.id ≠ nextIdStr emptyStore.docs)
      ∧ (∀ d ∈ emptyStore.docs, d.internalId ≠ nextIdStr emptyStore.docs)
      ∧ (postSchedules emptyStore (SchedulesField.arr [sampleCand])).2 = createdResponse
      ∧ getScheduleByKey (postSchedules emptyStore (SchedulesField.arr [sampleCand])).1
            (nextIdStr emptyStore.docs)
          = GetResponse.found
              (builtSchedule emptyStore sampleCand
                [{ name := "Monday"
                   subjects := [{ hour := "9:00"
                                  content := [{ subject := "Math"
                                                prof := "Dr. Ali" }] }] }]) := by
  have h := @claim3_amended emptyStore sampleCand
    [{ name := "Monday"
       subjects := [{ hour := "9:00"
                      content := [{ subject := "Math"
                                    prof := "Dr. Ali" }] }] }]
    (by decide) rfl (by decide) (by decide)
  exact ⟨by decide, rfl, by decide, by decide, h.1, h.2⟩

/-- Claim C4: A batch whose candidates before `bad` are all valid and whose
candidate `bad` fails validation is answered 400; the final store is
exactly the one left by the prefix — the records created from the earlier
candidates remain persisted (appended to the original store, no rollback)
and nothing from `bad` or the candidates after it is persisted. -/
theorem claim4_non_atomic_batch {st : Store} {pre post : List ScheduleInput}
    {bad : ScheduleInput}
    (hpre : (processCandidates st pre).2 = createdResponse)
    (hbad : missingRequired bad = true
      ∨ ∃ e, formatDays (bad.days.getD []) = Except.error e) :
    ∃ r : ApiResponse,
      postSchedules st (SchedulesField.arr (pre ++ bad :: post))
        = ((processCandidates st pre).1, r)
      ∧ r.status = 400
      ∧ ∃ newDocs, (processCandidates st pre).1.docs = st.docs ++ newDocs := by
  have hne : pre ++ bad :: post ≠ [] := by
    cases pre <;> simp
  rw [postSchedules_arr_ne_nil hne, processCandidates_append hpre]
  obtain ⟨r, hr, hst⟩ :=
    @processCandidates_invalid_head (processCandidates st pre).1 bad post hbad
  exact ⟨r, hr, hst, processCandidates_docs_grow pre st⟩

/-- Claim C4, witness: Valid–invalid–valid batch over the empty store: the
first candidate's record stays persisted, the response is 400. -/
theorem claim4_witness :
    (processCandidates emptyStore [sampleCand]).2 = createdResponse
      ∧ (missingRequired noDivisionCand = true
        ∨ ∃ e, formatDays (noDivisionCand.days.getD []) = Except.error e)
      ∧ ∃ r : ApiResponse,
          postSchedules emptyStore
              (SchedulesField.arr ([sampleCand] ++ noDivisionCand :: [sampleCand]))
            = ((processCandidates emptyStore [sampleCand]).1, r)
          ∧ r.status = 400
          ∧ ∃ newDocs,
              (processCandidates emptyStore [sampleCand]).1.docs
                = emptyStore.docs ++ newDocs :=
  ⟨by decide, Or.inl (by decide),
    claim4_non_atomic_batch (by decide) (Or.inl (by decide))⟩

/-- Claim C5, counterexample: A request POSTing the batch [valid, invalid]
is rejected with a 400 validation error, yet it does not leave the store
unchanged: the valid first candidate was written before the failing
candidate's validation error was detected. -/
theorem claim5_counterexample :
    (postSchedules emptyStore (SchedulesField.arr [sampleCand, noDivisionCand])).2
        = missingFieldsResponse
      ∧ missingFieldsResponse.status = 400
      ∧ (postSchedules emptyStore (SchedulesField.arr [sampleCand, noDivisionCand])).1
          ≠ emptyStore
      ∧ ((postSchedules emptyStore
            (SchedulesField.arr [sampleCand, noDivisionCand])).1.docs.map
          (fun d => d.id)) = ["1"] := by
  refine ⟨by decide, by decide, by decide, by decide⟩

/-- Claim C5, amended: Validation is per candidate, before that candidate's
write: a candidate failing the required-fields guard or the
nested-structure validation produces a 400 and leaves the store exactly as
it was when that candidate was reached. A rejected request therefore leaves
the store unchanged only when the first failing candidate is the first
write attempted; writes from earlier valid candidates in the same request
persist. -/
theorem claim5_amended {st : Store} {c : ScheduleInput}
    {rest : List ScheduleInput}
    (h : missingRequired c = true
      ∨ ∃ e, formatDays (c.days.getD []) = Except.error e) :
    ∃ r : ApiResponse, processCandidates st (c :: rest) = (st, r)
      ∧ r.status = 400 :=
  processCandidates_invalid_head h

/-- Claim C5, witness: The amended statement applied to a batch whose first
candidate is invalid: the empty store is left untouched. -/
theorem claim5_witness :
    (missingRequired noDivisionCand = true
        ∨ ∃ e, formatDays (noDivisionCand.days.getD []) = Except.error e)
      ∧ ∃ r : ApiResponse,
          processCandidates emptyStore [noDivisionCand] = (emptyStore, r)
            ∧ r.status = 400 :=
  ⟨Or.inl (by decide), claim5_amended (Or.inl (by decide))⟩

/-- Claim C6: GET /schedules/:id with a key that matches no document's
external `id` and no document's internal `_id` answers the 404 not-found
response, for every such key and store. -/
theorem claim6_get_not_found {st : Store} {key : String}
    (h : ∀ d ∈ st.docs, d.id ≠ key ∧ d.internalId ≠ key) :
    getScheduleByKey st key = GetResponse.notFound := by
  unfold getScheduleByKey
  have hnone : st.docs.find? (matchesKey key) = none := by
    rw [List.find?_eq_none]
    intro d hd
    have hk := h d hd
    simp [matchesKey, hk.1, hk.2]
  rw [hnone]

/-- Claim C6, witness: The key "zzz" matches nothing in `mixedStore`. -/
theorem claim6_witness :
    (∀ d ∈ mixedStore.docs, d.id ≠ "zzz" ∧ d.internalId ≠ "zzz")
      ∧ getScheduleByKey mixedStore "zzz" = GetResponse.notFound :=
  ⟨by decide, claim6_get_not_found (by decide)⟩

/-- Claim C7: A PUT whose body contains only `level` on an existing document
updates `level` and leaves every other field of that document (`id`,
`division`, `term`, `year`, `days`, internal id) and every other document
unchanged, and the response carries the full updated record. -/
theorem claim7_put_level_only {pre post : List Schedule} {d : Schedule}
    {key v : String} {oid : Nat}
    (hpre : ∀ e ∈ pre, matchesKey key e = false)
    (hd : matchesKey key d = true)
    (hv : v.isEmpty = false) :
    putSchedule { docs := pre ++ d :: post, nextOid := oid } key (levelOnly v)
      = ({ docs := pre ++ { d with level := v } :: post, nextOid := oid },
         PutResponse.updated { d with level := v }) := by
  have hvalid : validPatch (levelOnly v) = true := by
    simp [validPatch, levelOnly, hv]
  have hupd := @updateFirstMatch_append key (levelOnly v) pre post d hpre hd
  have happ : applyPatch d (levelOnly v) = { d with level := v } := rfl
  rw [happ] at hupd
  simp [putSchedule, hvalid, hupd]

/-- Claim C7, witness: Updating only `level` of the document with id "9". -/
theorem claim7_witness :
    (∀ e ∈ ([] : List Schedule), matchesKey "9" e = false)
      ∧ matchesKey "9" (sampleDoc "a1" "9") = true
      ∧ ("2" : String).isEmpty = false
      ∧ putSchedule { docs := [] ++ sampleDoc "a1" "9" :: [sampleDoc "b2" "11"]
                      nextOid := 2 } "9" (levelOnly "2")
          = ({ docs := [] ++ { sampleDoc "a1" "9" with level := "2" }
                  :: [sampleDoc "b2" "11"]
               nextOid := 2 },
             PutResponse.updated { sampleDoc "a1" "9" with level := "2" }) :=
  ⟨by decide, by decide, by decide,
    claim7_put_level_only (by decide) (by decide) (by decide)⟩

/-- Claim C8: A POST whose `schedules` field is missing, not an array, or the
empty array is answered with the 400 batch-shape message and persists
nothing: the store is returned unchanged. -/
theorem claim8_bad_batch_shape (st : Store) (f : SchedulesField)
    (h : f = SchedulesField.missing ∨ f = SchedulesField.notArray
      ∨ f = SchedulesField.arr []) :
    postSchedules st f = (st, badBatchResponse)
      ∧ badBatchResponse.status = 400 := by
  rcases h with rfl | rfl | rfl <;> exact ⟨rfl, rfl⟩

/-- Claim C8, witness: A missing `schedules` field on the empty store. -/
theorem claim8_witness :
    postSchedules emptyStore SchedulesField.missing = (emptyStore, badBatchResponse)
      ∧ badBatchResponse.status = 400 :=
  claim8_bad_batch_shape emptyStore SchedulesField.missing (Or.inl rfl)

/-- Claim C9: A candidate whose `division`, `level`, `term` or `year` is
present but the empty string fails the truthiness presence check exactly
like an absent field: any batch containing such a candidate is answered
400, and every document a POST ever adds to the store has nonempty required
fields — empty-string values never reach the store. -/
theorem claim9_empty_string_required {st : Store} {l : List ScheduleInput}
    {c : ScheduleInput} (hc : c ∈ l)
    (hbad : c.division = some "" ∨ c.level = some "" ∨ c.term = some ""
      ∨ c.year = some "") :
    (postSchedules st (SchedulesField.arr l)).2.status = 400
      ∧ ∀ d ∈ (postSchedules st (SchedulesField.arr l)).1.docs,
          d ∈ st.docs
            ∨ (d.division ≠ "" ∧ d.level ≠ "" ∧ d.term ≠ "" ∧ d.year ≠ "") := by
  have hne : l ≠ [] := by rintro rfl; cases hc
  rw [postSchedules_arr_ne_nil hne]
  have hmr : missingRequired c = true := by
    rcases hbad with h | h | h | h <;> simp [missingRequired, h, truthy_empty]
  exact ⟨processCandidates_member_invalid st hc hmr,
    processCandidates_new_docs_fields l st⟩

/-- Claim C9, witness: A candidate with `division: ""` over the empty
store. -/
theorem claim9_witness :
    emptyDivisionCand ∈ [emptyDivisionCand]
      ∧ emptyDivisionCand.division = some ""
      ∧ (postSchedules emptyStore (SchedulesField.arr [emptyDivisionCand])).2.status = 400
      ∧ ∀ d ∈ (postSchedules emptyStore
            (SchedulesField.arr [emptyDivisionCand])).1.docs,
          d ∈ emptyStore.docs
            ∨ (d.division ≠ "" ∧ d.level ≠ "" ∧ d.term ≠ "" ∧ d.year ≠ "") := by
  have h := @claim9_empty_string_required emptyStore [emptyDivisionCand]
    emptyDivisionCand (List.mem_singleton.mpr rfl) (Or.inl (by decide))
  exact ⟨List.mem_singleton.mpr rfl, by decide, h.1, h.2⟩

/-- Claim C10: A candidate whose `days` is the present empty array passes all
validation (an empty array is truthy, and the days mapping over it is
vacuous) and — when the generated id is fresh — is persisted as a schedule
with no days. -/
theorem claim10_empty_days_ok {st : Store} {c : ScheduleInput}
    (hdiv : truthy c.division = true) (hlev : truthy c.level = true)
    (hterm : truthy c.term = true) (hyear : truthy c.year = true)
    (hdays : c.days = some [])
    (hfresh : ∀ d ∈ st.docs, d.id ≠ nextIdStr st.docs) :
    postSchedules st (SchedulesField.arr [c])
      = ({ docs := st.docs ++ [builtSchedule st c []], nextOid := st.nextOid + 1 },
         createdResponse)
      ∧ (builtSchedule st c []).days = [] := by
  have h1 : missingRequired c = false := by
    simp [missingRequired, hdiv, hlev, hterm, hyear, hdays]
  have h2 : formatDays (c.days.getD []) = Except.ok [] := by
    rw [hdays]; rfl
  have h3 : st.save (builtSchedule st c [])
      = Except.ok { docs := st.docs ++ [builtSchedule st c []]
                    nextOid := st.nextOid + 1 } :=
    Store.save_of_fresh (fun d hd => hfresh d hd)
  rw [postSchedules_arr_ne_nil (by simp), processCandidates_cons_ok h1 h2 h3]
  exact ⟨rfl, rfl⟩

/-- Claim C10, witness: The valid candidate with `days: []` is persisted on
the empty store with an empty `days`. -/
theorem claim10_witness :
    truthy emptyDaysCand.division = true
      ∧ truthy emptyDaysCand.level = true
      ∧ truthy emptyDaysCand.term = true
      ∧ truthy emptyDaysCand.year = true
      ∧ emptyDaysCand.days = some []
      ∧ (∀ d ∈ emptyStore.docs, d.id ≠ nextIdStr emptyStore.docs)
      ∧ postSchedules emptyStore (SchedulesField.arr [emptyDaysCand])
          = ({ docs := emptyStore.docs ++ [builtSchedule emptyStore emptyDaysCand []]
               nextOid := emptyStore.nextOid + 1 },
             createdResponse)
      ∧ (builtSchedule emptyStore emptyDaysCand []).days = [] := by
  have h := @claim10_empty_days_ok emptyStore emptyDaysCand
    (by decide) (by decide) (by decide) (by decide) (by decide) (by decide)
  exact ⟨by decide, by decide, by decide, by decide, by decide, by decide, h.1, h.2⟩

end SchedulesApi
